import Mathlib

/- Verification development for the publication-page updater
   (update_publications.py and update_publications_local.py).

   Documents and rendered HTML are modelled as `List Char`. The regex
   operation used by `update_html_file` is
   `re.sub(re.escape(START) + ".*?" + re.escape(END), repl, content, flags=re.DOTALL)`:
   both markers are escaped literals, so a match starts at an occurrence of
   the start marker and extends to the first occurrence of the end marker
   after it (non-greedy `.*?` with DOTALL), and `re.sub` with the default
   count replaces every non-overlapping match, scanning left to right.
   The embedding below implements exactly that on `List Char`. -/

section ListOccurrences

variable {α : Type*} [DecidableEq α]

/-- Proposition that `pat` occurs in `l` at index `p` (as a contiguous block). -/
def occursAt (pat l : List α) (p : Nat) : Prop := pat <+: l.drop p

instance (pat l : List α) (p : Nat) : Decidable (occursAt pat l p) :=
  inferInstanceAs (Decidable (pat <+: l.drop p))

/-- All indices at which `pat` occurs in `l`, in increasing order. -/
def occList (pat l : List α) : List Nat :=
  (List.range (l.length + 1)).filter fun p => pat.isPrefixOf (l.drop p)

/-- Index of the leftmost occurrence of `pat` in `l`; `none` when there is none.
    This models both the Python substring test `pat in l` (presence) and the
    leftmost-match rule of `re.search` and `re.sub` for a literal pattern. -/
def firstIdx (pat l : List α) : Option Nat := (occList pat l).head?

end ListOccurrences

/- Markers, exactly as in both source files. -/

/-- Start marker literal from both scripts. -/
def SECTION_MARKER_START : String := "<!-- PUBLICATIONS_START -->"

/-- End marker literal from both scripts. -/
def SECTION_MARKER_END : String := "<!-- PUBLICATIONS_END -->"

/-- Start marker as a character list. -/
def startM : List Char := SECTION_MARKER_START.toList

/-- End marker as a character list. -/
def endM : List Char := SECTION_MARKER_END.toList

/-- Expansion of a Python `re` replacement template against a match.
    A character that is not a backslash is copied literally.  After a
    backslash: a second backslash yields a literal backslash, `g<0>` inserts
    the whole match (the pattern used by the scripts has no capture groups,
    so any numeric group reference is an error), and `n`, `t`, `r` yield the
    usual control characters.  Any other escape raises `re.error` or an
    invalid-group-reference error in Python; that failure is `none` here. -/
def expandTemplate (m : List Char) (t : List Char) : Option (List Char) :=
  match t with
  | [] => some []
  | c :: r =>
    if c = '\\' then
      match r with
      | '\\' :: r2 => (expandTemplate m r2).map (fun s => '\\' :: s)
      | 'g' :: '<' :: '0' :: '>' :: r2 => (expandTemplate m r2).map (fun s => m ++ s)
      | 'n' :: r2 => (expandTemplate m r2).map (fun s => '\n' :: s)
      | 't' :: r2 => (expandTemplate m r2).map (fun s => '\t' :: s)
      | 'r' :: r2 => (expandTemplate m r2).map (fun s => '\r' :: s)
      | _ => none
    else (expandTemplate m r).map (fun s => c :: s)

/-- Fueled worker for the `re.sub` call of `update_html_file`: replaces, left
    to right, every non-overlapping match of
    "start marker, shortest anything, end marker" with the expansion of the
    template `T` against that match.  A template error yields `none` (Python
    raises, and the caller catches the exception).  The fuel only serves
    termination; `re_sub` supplies enough of it. -/
def subFuel (T : List Char) : Nat → List Char → Option (List Char)
  | 0, doc => some doc
  | fuel + 1, doc =>
    match firstIdx startM doc with
    | none => some doc
    | some i =>
      match firstIdx endM (doc.drop (i + startM.length)) with
      | none => some doc
      | some j =>
        match expandTemplate ((doc.drop i).take (startM.length + j + endM.length)) T with
        | none => none
        | some r =>
          (subFuel T fuel (doc.drop (i + startM.length + j + endM.length))).map
            (fun tail => doc.take i ++ r ++ tail)

/-- The text transformation of
    `re.sub(escape(START) + ".*?" + escape(END), T, doc, flags=re.DOTALL)`. -/
def re_sub (T doc : List Char) : Option (List Char) :=
  subFuel T (doc.length + 1) doc

/-- Text-level model of `update_html_file` (identical in both scripts,
    lines 92-121 and 140-172): the first component is the returned Bool, the
    second is the document text afterwards (the text written back, or the
    unchanged input when the function returns False before writing).
    `re.sub` parses a replacement string containing a backslash before
    scanning, so an invalid template raises even when the pattern has no
    match; that upfront parse is the first inner match (template failure
    does not depend on the matched text, so it is probed with an empty
    match).  The generic except branch catches the raised error and returns
    False without writing. -/
def update_html_file (content new_content : List Char) : Bool × List Char :=
  if (firstIdx startM content).isSome ∧ (firstIdx endM content).isSome then
    match expandTemplate [] new_content with
    | none => (false, content)
    | some _ =>
      match re_sub new_content content with
      | none => (false, content)
      | some t => (true, t)
  else (false, content)

/-- Observation used to state the round-trip claims: the marker-delimited
    region of a document, i.e. the extent of the first match of the very
    pattern `update_html_file` substitutes on (first start marker through the
    first end marker after it, markers included). -/
def markerRegion (doc : List Char) : Option (List Char) :=
  match firstIdx startM doc with
  | none => none
  | some i =>
    match firstIdx endM (doc.drop (i + startM.length)) with
    | none => none
    | some j => some ((doc.drop i).take (startM.length + j + endM.length))

/- Publication records and year parsing. -/

/-- Value for one digit character, as in Python int conversion. -/
def digitVal (c : Char) : Nat := c.toNat - 48

/-- Match of the regex `(19|20)\d{2}` at the head of the text (the pattern
    of `get_sort_year` in update_publications_local.py): two digits starting
    19 or 20 followed by two more digits; returns the 4-digit number. -/
def matchYearAt : List Char → Option Nat
  | c1 :: c2 :: c3 :: c4 :: _ =>
    if ((c1 = '1' ∧ c2 = '9') ∨ (c1 = '2' ∧ c2 = '0')) ∧ c3.isDigit ∧ c4.isDigit then
      some (1000 * digitVal c1 + 100 * digitVal c2 + 10 * digitVal c3 + digitVal c4)
    else none
  | _ => none

/-- Leftmost match of `(19|20)\d{2}` anywhere in the text, as found by
    `re.search`. -/
def searchYear : List Char → Option Nat
  | [] => none
  | c :: t =>
    match matchYearAt (c :: t) with
    | some n => some n
    | none => searchYear t

/-- Python whitespace characters stripped by `str.strip` (ASCII subset). -/
def isPySpace (c : Char) : Bool :=
  c == ' ' || c == '\t' || c == '\n' || c == '\r' || c == '\x0b' || c == '\x0c'

/-- Strip leading and trailing whitespace, as `int` does before parsing. -/
def stripChars (l : List Char) : List Char :=
  ((l.dropWhile isPySpace).reverse.dropWhile isPySpace).reverse

/-- Digit run accumulator for `int`: digits, with single underscores allowed
    between digits (Python numeric-literal grouping). -/
def digitsCore (acc : Nat) : List Char → Option Nat
  | [] => some acc
  | '_' :: c :: r => if c.isDigit then digitsCore (10 * acc + digitVal c) r else none
  | ['_'] => none
  | c :: r => if c.isDigit then digitsCore (10 * acc + digitVal c) r else none

/-- Nonempty digit run for `int`. -/
def parseDigits : List Char → Option Nat
  | [] => none
  | c :: r => if c.isDigit then digitsCore (digitVal c) r else none

/-- Model of Python `int(text)` on a string: optional surrounding
    whitespace, optional sign, nonempty base-10 digit run; `none` models a
    raised ValueError. -/
def parseInt (l : List Char) : Option Int :=
  match stripChars l with
  | '+' :: r => (parseDigits r).map (fun n => (n : Int))
  | '-' :: r => (parseDigits r).map (fun n => -(n : Int))
  | r => (parseDigits r).map (fun n => (n : Int))

/-- Authors field of a record: the provider returns either a single text
    blob or a list of names. -/
inductive AuthorsField where
  | str : List Char → AuthorsField
  | list : List (List Char) → AuthorsField
deriving DecidableEq

/-- Normalized publication record, the dictionary built in
    `fetch_publications` in both scripts. -/
structure Publication where
  title : List Char
  authors : AuthorsField
  year : List Char
  venue : List Char
  citations : Nat
  url : List Char
deriving DecidableEq

/-- Join of the authors field for rendering: a list is joined with a comma
    and space, a plain text blob is kept as is. -/
def formatAuthors : AuthorsField → List Char
  | AuthorsField.str s => s
  | AuthorsField.list l => List.intercalate ", ".toList l

/-- Order used to model Python `list.sort(key=key, reverse=True)` on
    index-decorated elements: larger key first, and for equal keys the
    smaller original index first.  Python sort is stable and its result is
    the unique permutation sorted by this relation. -/
def keyRel {α : Type*} (key : α → Int) (a b : Nat × α) : Prop :=
  key b.2 < key a.2 ∨ (key a.2 = key b.2 ∧ a.1 ≤ b.1)

instance {α : Type*} (key : α → Int) : DecidableRel (keyRel key) := fun a b =>
  inferInstanceAs (Decidable (key b.2 < key a.2 ∨ (key a.2 = key b.2 ∧ a.1 ≤ b.1)))

instance {α : Type*} (key : α → Int) : IsTotal (Nat × α) (keyRel key) := by
  constructor
  intro a b
  rcases lt_trichotomy (key a.2) (key b.2) with h | h | h
  · exact Or.inr (Or.inl h)
  · rcases Nat.le_total a.1 b.1 with h2 | h2
    · exact Or.inl (Or.inr ⟨h, h2⟩)
    · exact Or.inr (Or.inr ⟨h.symm, h2⟩)
  · exact Or.inl (Or.inl h)

instance {α : Type*} (key : α → Int) : IsTrans (Nat × α) (keyRel key) := by
  constructor
  intro a b c hab hbc
  rcases hab with h1 | ⟨h1, h1i⟩ <;> rcases hbc with h2 | ⟨h2, h2i⟩
  · exact Or.inl (by omega)
  · exact Or.inl (by omega)
  · exact Or.inl (by omega)
  · exact Or.inr ⟨by omega, by omega⟩

/-- Model of `publications.sort(key=key, reverse=True)` followed by reading
    the list: stable descending sort by `key`. -/
def pySortDesc {α : Type*} (key : α → Int) (l : List α) : List α :=
  (List.insertionSort (keyRel key) l.enum).map Prod.snd

namespace update_publications_local

/-- Model of `get_sort_year` (update_publications_local.py lines 66-78):
    sentinel or empty year gives key 0; otherwise the leftmost `(19|20)\d{2}`
    match gives its 4-digit value; otherwise a full `int` parse gives that
    integer; any remaining failure gives 0. -/
def get_sort_year (year : List Char) : Int :=
  if year = "n.d.".toList ∨ year = [] then 0
  else
    match searchYear year with
    | some n => (n : Int)
    | none =>
      match parseInt year with
      | some n => n
      | none => 0

/-- Model of `fetch_publications` after the scraping step: the raw outcome
    of the network interaction is a parameter; an exception gives the empty
    list (the except branch, lines 85-91), a successful scrape gives the
    normalized records sorted by `get_sort_year` descending (stable) and
    truncated to 10 (lines 80-83). -/
def fetch_publications (res : Except Unit (List Publication)) : List Publication :=
  match res with
  | Except.error _ => []
  | Except.ok pubs => (pySortDesc (fun p => get_sort_year p.year) pubs).take 10

/-- Model of `format_publication_html` (lines 93-124), with the venue
    suppressed when empty, equal to the sentinel Unpublished, or blank. -/
def format_publication_html (pub : Publication) : List Char :=
  "        <div class=\"publication-item\">\n".toList ++
  (if pub.url ≠ [] then
    "            <h3><a href=\"".toList ++ pub.url ++ "\" target=\"_blank\">".toList ++
      pub.title ++ "</a></h3>\n".toList
   else "            <h3>".toList ++ pub.title ++ "</h3>\n".toList) ++
  "            <p class=\"authors\">".toList ++ formatAuthors pub.authors ++ "</p>\n".toList ++
  "            <p class=\"venue-info\">".toList ++
  (if pub.venue ≠ [] ∧ pub.venue ≠ "Unpublished".toList ∧
      pub.venue.any (fun c => !isPySpace c) then
    pub.venue ++ ", ".toList
   else []) ++
  pub.year ++
  (if 0 < pub.citations then
    " • <span class=\"citations\">".toList ++ (toString pub.citations).toList ++
      " citations</span>".toList
   else []) ++
  "</p>\n".toList ++ "        </div>\n".toList

/-- Model of `generate_publications_html` (lines 126-138); the timestamp is
    a parameter since it reads the wall clock. -/
def generate_publications_html (now : List Char) (pubs : List Publication) : List Char :=
  startM ++ "\n".toList ++
  "    <!-- Last updated: ".toList ++ now ++ " -->\n".toList ++
  "    <div class=\"publications-list\">\n".toList ++
  (pubs.map format_publication_html).join ++
  "    </div>\n".toList ++
  "    ".toList ++ endM

end update_publications_local

namespace update_publications

/-- Sort key expression of update_publications.py line 44:
    `int(x['year']) if x['year'] != 'n.d.' else 0`; `none` models the
    ValueError that a non-integer year raises. -/
def yearKeyStrict (y : List Char) : Option Int :=
  if y = "n.d.".toList then some 0 else parseInt y

/-- Model of `fetch_publications` (update_publications.py lines 21-50): the
    scrape outcome is a parameter; any exception in the try block, including
    a ValueError raised by the sort key on a non-integer year, is caught and
    gives the empty list; otherwise the records are sorted by the key
    descending (stable) and truncated to 10. -/
def fetch_publications (res : Except Unit (List Publication)) : List Publication :=
  match res with
  | Except.error _ => []
  | Except.ok pubs =>
    if pubs.all (fun p => (yearKeyStrict p.year).isSome) then
      (pySortDesc (fun p => (yearKeyStrict p.year).getD 0) pubs).take 10
    else []

/-- Model of `format_publication_html` (update_publications.py lines 52-76):
    the venue is always rendered followed by a comma and space, with no
    suppression. -/
def format_publication_html (pub : Publication) : List Char :=
  "        <div class=\"publication-item\">\n".toList ++
  (if pub.url ≠ [] then
    "            <h3><a href=\"".toList ++ pub.url ++ "\" target=\"_blank\">".toList ++
      pub.title ++ "</a></h3>\n".toList
   else "            <h3>".toList ++ pub.title ++ "</h3>\n".toList) ++
  "            <p class=\"authors\">".toList ++ formatAuthors pub.authors ++ "</p>\n".toList ++
  "            <p class=\"venue-info\">".toList ++ pub.venue ++ ", ".toList ++
  pub.year ++
  (if 0 < pub.citations then
    " • <span class=\"citations\">".toList ++ (toString pub.citations).toList ++
      " citations</span>".toList
   else []) ++
  "</p>\n".toList ++ "        </div>\n".toList

/-- Model of `generate_publications_html` (update_publications.py
    lines 78-90). -/
def generate_publications_html (now : List Char) (pubs : List Publication) : List Char :=
  startM ++ "\n".toList ++
  "    <!-- Last updated: ".toList ++ now ++ " -->\n".toList ++
  "    <div class=\"publications-list\">\n".toList ++
  (pubs.map format_publication_html).join ++
  "    </div>\n".toList ++
  "    ".toList ++ endM

/-- Model of `main` (update_publications.py lines 123-150): the default
    scholar id check, the scrape outcome, the wall clock and the document
    text are parameters; the result is the process exit status. -/
def main (idIsDefault : Bool) (fetch : Except Unit (List Publication))
    (now doc : List Char) : Nat :=
  if idIsDefault then 1
  else
    let publications := fetch_publications fetch
    if publications = [] then 1
    else if (update_html_file doc (generate_publications_html now publications)).1 then 0
    else 1

end update_publications

section ListLemmas

variable {α : Type*} [DecidableEq α]

theorem occursAt_length {pat l : List α} {p : Nat} (hpat : pat ≠ [])
    (h : occursAt pat l p) : p + pat.length ≤ l.length := by
  have hlen : pat.length ≤ (l.drop p).length := h.length_le
  rw [List.length_drop] at hlen
  by_cases hp : p ≤ l.length
  · omega
  · exfalso
    have : l.drop p = [] := List.drop_eq_nil_of_le (by omega)
    rw [occursAt, this] at h
    exact hpat (List.prefix_nil.mp h)

theorem mem_occList {pat l : List α} {p : Nat} (hpat : pat ≠ []) :
    p ∈ occList pat l ↔ occursAt pat l p := by
  rw [occList, List.mem_filter, List.mem_range, List.isPrefixOf_iff_prefix]
  constructor
  · exact fun h => h.2
  · intro h
    exact ⟨by have := occursAt_length hpat h; omega, h⟩

theorem occList_pairwise (pat l : List α) : (occList pat l).Pairwise (· < ·) :=
  (List.pairwise_lt_range _).filter _

theorem firstIdx_some_iff {pat l : List α} {m : Nat} (hpat : pat ≠ []) :
    firstIdx pat l = some m ↔
      occursAt pat l m ∧ ∀ q, q < m → ¬ occursAt pat l q := by
  constructor
  · intro h
    match hE : occList pat l with
    | [] => rw [firstIdx, hE] at h; exact absurd h (by simp)
    | a :: t =>
      rw [firstIdx, hE] at h
      have ham : m = a := by simpa using h.symm
      subst ham
      have hmem : m ∈ occList pat l := by rw [hE]; exact List.mem_cons_self _ _
      refine ⟨(mem_occList hpat).mp hmem, ?_⟩
      intro q hq hocc
      have hqmem : q ∈ occList pat l := (mem_occList hpat).mpr hocc
      rw [hE] at hqmem
      rcases List.mem_cons.mp hqmem with h1 | h2
      · omega
      · have hpw := occList_pairwise pat l
        rw [hE] at hpw
        have := (List.pairwise_cons.mp hpw).1 q h2
        omega
  · rintro ⟨hm, hmin⟩
    have hmem : m ∈ occList pat l := (mem_occList hpat).mpr hm
    match hE : occList pat l with
    | [] => rw [hE] at hmem; simp at hmem
    | a :: t =>
      rw [hE] at hmem
      have ha : a = m := by
        rcases List.mem_cons.mp hmem with h1 | h2
        · omega
        · have hpw := occList_pairwise pat l
          rw [hE] at hpw
          have ham := (List.pairwise_cons.mp hpw).1 m h2
          have haocc : occursAt pat l a := by
            apply (mem_occList hpat).mp
            rw [hE]; exact List.mem_cons_self _ _
          exact absurd haocc (hmin a ham)
      rw [firstIdx, hE, ha]
      rfl

theorem firstIdx_none_iff {pat l : List α} (hpat : pat ≠ []) :
    firstIdx pat l = none ↔ ∀ q, ¬ occursAt pat l q := by
  constructor
  · intro h q hocc
    have hmem : q ∈ occList pat l := (mem_occList hpat).mpr hocc
    match hE : occList pat l with
    | [] => rw [hE] at hmem; simp at hmem
    | a :: t => rw [firstIdx, hE] at h; simp at h
  · intro h
    match hE : occList pat l with
    | [] => rw [firstIdx, hE]; rfl
    | a :: t =>
      exfalso
      have : a ∈ occList pat l := by rw [hE]; exact List.mem_cons_self _ _
      exact h a ((mem_occList hpat).mp this)

theorem firstIdx_isSome_of_occursAt {pat l : List α} {p : Nat} (hpat : pat ≠ [])
    (h : occursAt pat l p) : (firstIdx pat l).isSome := by
  match hF : firstIdx pat l with
  | some m => rfl
  | none => exact absurd h ((firstIdx_none_iff hpat).mp hF p)

theorem occursAt_drop {pat l : List α} {n p : Nat} :
    occursAt pat (l.drop n) p ↔ occursAt pat l (n + p) := by
  rw [occursAt, occursAt, List.drop_drop]

theorem drop_take_comm (l : List α) (p k : Nat) :
    (l.drop p).take k = (l.take (p + k)).drop p := by
  induction p generalizing l with
  | zero => simp
  | succ p ih =>
    match l with
    | [] => simp
    | a :: t =>
      rw [List.drop_succ_cons, Nat.succ_add, List.take_succ_cons, List.drop_succ_cons]
      exact ih t

theorem take_add_split (l : List α) (m n : Nat) :
    l.take (m + n) = l.take m ++ (l.drop m).take n := by
  induction m generalizing l with
  | zero => simp
  | succ m ih =>
    match l with
    | [] => simp
    | a :: t =>
      rw [Nat.succ_add, List.take_succ_cons, List.take_succ_cons, List.drop_succ_cons,
        List.cons_append, ih t]

theorem take_append_add (l₁ l₂ : List α) (n : Nat) :
    (l₁ ++ l₂).take (l₁.length + n) = l₁ ++ l₂.take n := by
  induction l₁ with
  | nil => simp
  | cons a t ih => rw [List.cons_append, List.length_cons, Nat.succ_add,
      List.take_succ_cons, ih, List.cons_append]

theorem drop_append_add (l₁ l₂ : List α) (n : Nat) :
    (l₁ ++ l₂).drop (l₁.length + n) = l₂.drop n := by
  induction l₁ with
  | nil => simp
  | cons a t ih => rw [List.cons_append, List.length_cons, Nat.succ_add,
      List.drop_succ_cons, ih]

theorem take_append_self (l₁ l₂ : List α) : (l₁ ++ l₂).take l₁.length = l₁ := by
  have := take_append_add l₁ l₂ 0
  simpa using this

theorem drop_append_self (l₁ l₂ : List α) : (l₁ ++ l₂).drop l₁.length = l₂ := by
  have := drop_append_add l₁ l₂ 0
  simpa using this

theorem occursAt_iff_take {pat l : List α} {p : Nat} :
    occursAt pat l p ↔ pat = (l.drop p).take pat.length := by
  rw [occursAt, List.prefix_iff_eq_take]

theorem occursAt_congr_take {pat l₁ l₂ : List α} {n p : Nat}
    (h : l₁.take n = l₂.take n) (hp : p + pat.length ≤ n) :
    occursAt pat l₁ p ↔ occursAt pat l₂ p := by
  have key : ∀ l : List α, (l.drop p).take pat.length =
      ((l.take n).drop p).take pat.length := by
    intro l
    rw [drop_take_comm (l.take n) p pat.length, List.take_take,
      Nat.min_eq_left hp, drop_take_comm]
  rw [occursAt_iff_take, occursAt_iff_take, key l₁, key l₂, h]

end ListLemmas

theorem startM_ne_nil : startM ≠ [] := by decide

theorem endM_ne_nil : endM ≠ [] := by decide

theorem expandTemplate_no_backslash (m : List Char) :
    ∀ t : List Char, ('\\' : Char) ∉ t → expandTemplate m t = some t := by
  intro t
  induction t with
  | nil => intro _; rfl
  | cons c r ih =>
    intro h
    have hc : c ≠ '\\' := fun hc => h (hc ▸ List.mem_cons_self _ _)
    have hr : ('\\' : Char) ∉ r := fun hm => h (List.mem_cons_of_mem _ hm)
    conv_lhs => rw [expandTemplate.eq_def]
    simp only [if_neg hc]
    rw [ih hr]
    rfl

theorem subFuel_succ (T : List Char) (fuel : Nat) (doc : List Char) :
    subFuel T (fuel + 1) doc =
      match firstIdx startM doc with
      | none => some doc
      | some i =>
        match firstIdx endM (doc.drop (i + startM.length)) with
        | none => some doc
        | some j =>
          match expandTemplate ((doc.drop i).take (startM.length + j + endM.length)) T with
          | none => none
          | some r =>
            (subFuel T fuel (doc.drop (i + startM.length + j + endM.length))).map
              (fun tail => doc.take i ++ r ++ tail) := rfl

theorem subFuel_congr (T : List Char) :
    ∀ f g doc, doc.length < f → doc.length < g →
      subFuel T f doc = subFuel T g doc := by
  intro f
  induction f with
  | zero => intro g doc hf; omega
  | succ f ih =>
    intro g doc hf hg
    match g, hg with
    | g + 1, hg =>
      rw [subFuel_succ, subFuel_succ]
      cases h1 : firstIdx startM doc with
      | none => rfl
      | some i =>
        dsimp only
        cases h2 : firstIdx endM (doc.drop (i + startM.length)) with
        | none => rfl
        | some j =>
          dsimp only
          cases h3 : expandTemplate ((doc.drop i).take (startM.length + j + endM.length)) T with
          | none => rfl
          | some r =>
            dsimp only
            have hocc1 := ((firstIdx_some_iff startM_ne_nil).mp h1).1
            have hocc2 := ((firstIdx_some_iff endM_ne_nil).mp h2).1
            have hb1 : i + startM.length ≤ doc.length := occursAt_length startM_ne_nil hocc1
            have hb2 : j + endM.length ≤ (doc.drop (i + startM.length)).length :=
              occursAt_length endM_ne_nil hocc2
            rw [List.length_drop] at hb2
            have hS : 0 < startM.length := by decide
            have hlen : (doc.drop (i + startM.length + j + endM.length)).length <
                doc.length := by
              rw [List.length_drop]; omega
            rw [ih g (doc.drop (i + startM.length + j + endM.length)) (by omega) (by omega)]

theorem re_sub_no_start {T doc : List Char} (h : firstIdx startM doc = none) :
    re_sub T doc = some doc := by
  rw [re_sub, subFuel_succ, h]

theorem re_sub_no_end {T doc : List Char} {i : Nat}
    (h1 : firstIdx startM doc = some i)
    (h2 : firstIdx endM (doc.drop (i + startM.length)) = none) :
    re_sub T doc = some doc := by
  rw [re_sub, subFuel_succ, h1]
  dsimp only
  rw [h2]

theorem re_sub_step {T doc r : List Char} {i j : Nat}
    (h1 : firstIdx startM doc = some i)
    (h2 : firstIdx endM (doc.drop (i + startM.length)) = some j)
    (h3 : expandTemplate ((doc.drop i).take (startM.length + j + endM.length)) T = some r) :
    re_sub T doc =
      (re_sub T (doc.drop (i + startM.length + j + endM.length))).map
        (fun tail => doc.take i ++ r ++ tail) := by
  rw [re_sub, subFuel_succ, h1]
  dsimp only
  rw [h2]
  dsimp only
  rw [h3]
  dsimp only
  have hocc1 := ((firstIdx_some_iff startM_ne_nil).mp h1).1
  have hocc2 := ((firstIdx_some_iff endM_ne_nil).mp h2).1
  have hb1 : i + startM.length ≤ doc.length := occursAt_length startM_ne_nil hocc1
  have hb2 : j + endM.length ≤ (doc.drop (i + startM.length)).length :=
    occursAt_length endM_ne_nil hocc2
  rw [List.length_drop] at hb2
  have hS : 0 < startM.length := by decide
  rw [re_sub]
  rw [subFuel_congr T doc.length ((doc.drop (i + startM.length + j + endM.length)).length + 1)
    _ (by rw [List.length_drop]; omega) (by omega)]

theorem firstIdx_nil {α : Type*} [DecidableEq α] {pat : List α} (hpat : pat ≠ []) :
    firstIdx pat ([] : List α) = none := by
  apply (firstIdx_none_iff hpat).mpr
  intro q hocc
  rw [occursAt, List.drop_nil] at hocc
  exact hpat (List.prefix_nil.mp hocc)

theorem splice_take_start {doc : List Char} {i : Nat} (hi : i ≤ doc.length)
    (X : List Char) : (doc.take i ++ X).take i = doc.take i := by
  have hlen : (doc.take i).length = i := by rw [List.length_take]; omega
  have h := take_append_self (doc.take i) X
  rw [hlen] at h
  exact h

theorem splice_drop_start {doc : List Char} {i : Nat} (hi : i ≤ doc.length)
    (X : List Char) : (doc.take i ++ X).drop i = X := by
  have hlen : (doc.take i).length = i := by rw [List.length_take]; omega
  have h := drop_append_self (doc.take i) X
  rw [hlen] at h
  exact h

theorem splice_take_window {doc C t : List Char} {i : Nat}
    (h1 : firstIdx startM doc = some i) (hCpre : startM <+: C) :
    (doc.take i ++ (C ++ t)).take (i + startM.length) = doc.take (i + startM.length) := by
  have hocc1 := ((firstIdx_some_iff startM_ne_nil).mp h1).1
  have hi : i ≤ doc.length := by
    have := occursAt_length startM_ne_nil hocc1; omega
  have hlen : (doc.take i).length = i := by rw [List.length_take]; omega
  obtain ⟨rest, hrest⟩ := hCpre
  have hleft : (doc.take i ++ (C ++ t)).take (i + startM.length) =
      doc.take i ++ startM := by
    have h := take_append_add (doc.take i) (C ++ t) startM.length
    rw [hlen] at h
    rw [h]
    have h2 : (C ++ t).take startM.length = startM := by
      rw [← hrest, List.append_assoc]
      exact take_append_self startM (rest ++ t)
    rw [h2]
  have hright : doc.take (i + startM.length) = doc.take i ++ startM := by
    rw [take_add_split]
    have : (doc.drop i).take startM.length = startM :=
      (occursAt_iff_take.mp hocc1).symm
    rw [this]
  rw [hleft, hright]

theorem splice_firstIdx_start {doc C t : List Char} {i : Nat}
    (h1 : firstIdx startM doc = some i) (hCpre : startM <+: C) :
    firstIdx startM (doc.take i ++ (C ++ t)) = some i := by
  have hocc1 := ((firstIdx_some_iff startM_ne_nil).mp h1).1
  have hmin1 := ((firstIdx_some_iff startM_ne_nil).mp h1).2
  have hi : i ≤ doc.length := by
    have := occursAt_length startM_ne_nil hocc1; omega
  apply (firstIdx_some_iff startM_ne_nil).mpr
  constructor
  · rw [occursAt, splice_drop_start hi]
    exact hCpre.trans (List.prefix_append C t)
  · intro q hq hocc
    have hwin := splice_take_window h1 hCpre (t := t)
    have : occursAt startM doc q :=
      (occursAt_congr_take hwin (by omega)).mp hocc
    exact hmin1 q hq this

theorem splice_firstIdx_end {doc C cmid t : List Char} {i : Nat}
    (hi : i ≤ doc.length)
    (hC : C = startM ++ (cmid ++ endM))
    (hCE : occList endM C = [startM.length + cmid.length]) :
    firstIdx endM ((doc.take i ++ (C ++ t)).drop (i + startM.length)) =
      some cmid.length := by
  have hlen : (doc.take i).length = i := by rw [List.length_take]; omega
  have hdrop : (doc.take i ++ (C ++ t)).drop (i + startM.length) =
      cmid ++ (endM ++ t) := by
    have h := drop_append_add (doc.take i) (C ++ t) startM.length
    rw [hlen] at h
    rw [h, hC, List.append_assoc]
    rw [drop_append_self, List.append_assoc]
  rw [hdrop]
  apply (firstIdx_some_iff endM_ne_nil).mpr
  constructor
  · rw [occursAt, drop_append_self]
    exact List.prefix_append endM t
  · intro q hq hocc
    have hwin : (cmid ++ (endM ++ t)).take (cmid.length + endM.length) =
        (cmid ++ endM).take (cmid.length + endM.length) := by
      rw [take_append_add, take_append_self]
      rw [← List.length_append, List.take_length]
    have hocc2 : occursAt endM (cmid ++ endM) q :=
      (occursAt_congr_take hwin (by omega)).mp hocc
    have hocc3 : occursAt endM (C.drop startM.length) q := by
      rw [hC, drop_append_self]
      exact hocc2
    have hocc4 : occursAt endM C (startM.length + q) := occursAt_drop.mp hocc3
    have hmem : startM.length + q ∈ occList endM C :=
      (mem_occList endM_ne_nil).mpr hocc4
    rw [hCE] at hmem
    have : startM.length + q = startM.length + cmid.length := by simpa using hmem
    omega

theorem re_sub_total {T : List Char} (hnb : ('\\' : Char) ∉ T) :
    ∀ n doc, doc.length ≤ n → ∃ r, re_sub T doc = some r := by
  intro n
  induction n with
  | zero =>
    intro doc hle
    have hdoc : doc = [] := List.length_eq_zero.mp (by omega)
    subst hdoc
    exact ⟨[], re_sub_no_start (firstIdx_nil startM_ne_nil)⟩
  | succ n ih =>
    intro doc hle
    cases h1 : firstIdx startM doc with
    | none => exact ⟨doc, re_sub_no_start h1⟩
    | some i =>
      cases h2 : firstIdx endM (doc.drop (i + startM.length)) with
      | none => exact ⟨doc, re_sub_no_end h1 h2⟩
      | some j =>
        have hocc1 := ((firstIdx_some_iff startM_ne_nil).mp h1).1
        have hocc2 := ((firstIdx_some_iff endM_ne_nil).mp h2).1
        have hb1 := occursAt_length startM_ne_nil hocc1
        have hb2 := occursAt_length endM_ne_nil hocc2
        rw [List.length_drop] at hb2
        have hS : 0 < startM.length := by decide
        obtain ⟨tail, htail⟩ := ih (doc.drop (i + startM.length + j + endM.length))
          (by rw [List.length_drop]; omega)
        refine ⟨doc.take i ++ T ++ tail, ?_⟩
        rw [re_sub_step h1 h2 (expandTemplate_no_backslash _ _ hnb), htail]
        rfl

theorem re_sub_fixed {C cmid : List Char}
    (hC : C = startM ++ (cmid ++ endM))
    (hnb : ('\\' : Char) ∉ C)
    (hCE : occList endM C = [startM.length + cmid.length]) :
    ∀ n doc r, doc.length ≤ n → re_sub C doc = some r → re_sub C r = some r := by
  intro n
  induction n with
  | zero =>
    intro doc r hle h
    have hdoc : doc = [] := List.length_eq_zero.mp (by omega)
    subst hdoc
    rw [re_sub_no_start (firstIdx_nil startM_ne_nil)] at h
    have := Option.some.inj h
    subst this
    exact re_sub_no_start (firstIdx_nil startM_ne_nil)
  | succ n ih =>
    intro doc r hle h
    cases h1 : firstIdx startM doc with
    | none =>
      rw [re_sub_no_start h1] at h
      have := Option.some.inj h
      subst this
      exact re_sub_no_start h1
    | some i =>
      cases h2 : firstIdx endM (doc.drop (i + startM.length)) with
      | none =>
        rw [re_sub_no_end h1 h2] at h
        have := Option.some.inj h
        subst this
        exact re_sub_no_end h1 h2
      | some j =>
        rw [re_sub_step h1 h2 (expandTemplate_no_backslash _ _ hnb)] at h
        obtain ⟨tail, htail, hr⟩ := Option.map_eq_some'.mp h
        have hocc1 := ((firstIdx_some_iff startM_ne_nil).mp h1).1
        have hocc2 := ((firstIdx_some_iff endM_ne_nil).mp h2).1
        have hb1 := occursAt_length startM_ne_nil hocc1
        have hb2 := occursAt_length endM_ne_nil hocc2
        rw [List.length_drop] at hb2
        have hS : 0 < startM.length := by decide
        have hi : i ≤ doc.length := by omega
        have hlen : (doc.take i).length = i := by rw [List.length_take]; omega
        have htailfix := ih (doc.drop (i + startM.length + j + endM.length)) tail
          (by rw [List.length_drop]; omega) htail
        subst hr
        rw [List.append_assoc]
        have hCpre : startM <+: C := by rw [hC]; exact List.prefix_append _ _
        have hA := splice_firstIdx_start (t := tail) h1 hCpre
        have hB := splice_firstIdx_end (t := tail) hi hC hCE
        rw [re_sub_step hA hB (expandTemplate_no_backslash _ _ hnb)]
        have hkey : i + startM.length + cmid.length + endM.length =
            (doc.take i).length + C.length := by
          rw [hlen, hC, List.length_append, List.length_append]
          omega
        have hdroptail : (doc.take i ++ (C ++ tail)).drop
            (i + startM.length + cmid.length + endM.length) = tail := by
          rw [hkey, drop_append_add, drop_append_self]
        rw [hdroptail, htailfix]
        have htake : (doc.take i ++ (C ++ tail)).take i = doc.take i :=
          splice_take_start hi _
        rw [htake]
        simp [List.append_assoc]

theorem firstIdx_of_occList_cons {α : Type*} [DecidableEq α] {pat l : List α}
    {a : Nat} {t : List Nat} (h : occList pat l = a :: t) :
    firstIdx pat l = some a := by
  rw [firstIdx, h]
  rfl

theorem firstIdx_none_of_occList_nil {α : Type*} [DecidableEq α] {pat l : List α}
    (h : occList pat l = []) : firstIdx pat l = none := by
  rw [firstIdx, h]
  rfl

theorem update_html_file_eq (content new_content : List Char) :
    update_html_file content new_content =
      if (firstIdx startM content).isSome ∧ (firstIdx endM content).isSome then
        match expandTemplate [] new_content with
        | none => (false, content)
        | some _ =>
          match re_sub new_content content with
          | none => (false, content)
          | some t => (true, t)
      else (false, content) := rfl

theorem markerRegion_eq (doc : List Char) :
    markerRegion doc =
      match firstIdx startM doc with
      | none => none
      | some i =>
        match firstIdx endM (doc.drop (i + startM.length)) with
        | none => none
        | some j => some ((doc.drop i).take (startM.length + j + endM.length)) := rfl

theorem update_single_pair {doc C cmid : List Char} {i k : Nat}
    (hS : occList startM doc = [i])
    (hE : occList endM doc = [k])
    (hik : i + startM.length ≤ k)
    (hC : C = startM ++ (cmid ++ endM))
    (hnb : ('\\' : Char) ∉ C) :
    update_html_file doc C =
      (true, doc.take i ++ (C ++ doc.drop (k + endM.length))) := by
  have h1 : firstIdx startM doc = some i := firstIdx_of_occList_cons hS
  have hkE : firstIdx endM doc = some k := firstIdx_of_occList_cons hE
  have hocckE : occursAt endM doc k := by
    apply (mem_occList endM_ne_nil).mp
    rw [hE]
    exact List.mem_cons_self _ _
  have h2 : firstIdx endM (doc.drop (i + startM.length)) =
      some (k - (i + startM.length)) := by
    apply (firstIdx_some_iff endM_ne_nil).mpr
    constructor
    · apply occursAt_drop.mpr
      have harith : i + startM.length + (k - (i + startM.length)) = k := by omega
      rw [harith]
      exact hocckE
    · intro q hq hocc
      have hocc2 : occursAt endM doc (i + startM.length + q) := occursAt_drop.mp hocc
      have hmem : i + startM.length + q ∈ occList endM doc :=
        (mem_occList endM_ne_nil).mpr hocc2
      rw [hE] at hmem
      have : i + startM.length + q = k := by simpa using hmem
      omega
  have h3 := expandTemplate_no_backslash
    ((doc.drop i).take (startM.length + (k - (i + startM.length)) + endM.length)) C hnb
  have h4 : firstIdx startM (doc.drop (k + endM.length)) = none := by
    apply (firstIdx_none_iff startM_ne_nil).mpr
    intro q hocc
    have hocc2 : occursAt startM doc (k + endM.length + q) := occursAt_drop.mp hocc
    have hmem : k + endM.length + q ∈ occList startM doc :=
      (mem_occList startM_ne_nil).mpr hocc2
    rw [hS] at hmem
    have : k + endM.length + q = i := by simpa using hmem
    have hEpos : 0 < endM.length := by decide
    omega
  rw [update_html_file_eq, h1, hkE]
  rw [if_pos ⟨rfl, rfl⟩]
  rw [expandTemplate_no_backslash [] C hnb]
  dsimp only
  rw [re_sub_step h1 h2 h3]
  have harg : i + startM.length + (k - (i + startM.length)) + endM.length =
      k + endM.length := by omega
  rw [harg, re_sub_no_start h4]
  simp [List.append_assoc]

theorem markerRegion_splice {doc C cmid t : List Char} {i : Nat}
    (h1 : firstIdx startM doc = some i)
    (hC : C = startM ++ (cmid ++ endM))
    (hCE : occList endM C = [startM.length + cmid.length]) :
    markerRegion (doc.take i ++ (C ++ t)) = some C := by
  have hocc1 := ((firstIdx_some_iff startM_ne_nil).mp h1).1
  have hi : i ≤ doc.length := by
    have := occursAt_length startM_ne_nil hocc1; omega
  have hCpre : startM <+: C := by rw [hC]; exact List.prefix_append _ _
  have hA := splice_firstIdx_start (t := t) h1 hCpre
  have hB := splice_firstIdx_end (t := t) hi hC hCE
  rw [markerRegion_eq, hA]
  dsimp only
  rw [hB]
  dsimp only
  have hdrop : (doc.take i ++ (C ++ t)).drop i = C ++ t := splice_drop_start hi _
  rw [hdrop]
  have hlenC : startM.length + cmid.length + endM.length = C.length := by
    rw [hC, List.length_append, List.length_append]
    omega
  rw [hlenC, take_append_self]

theorem pySortDesc_perm {α : Type*} (key : α → Int) (l : List α) :
    (pySortDesc key l).Perm l := by
  have h := (List.perm_insertionSort (keyRel key) l.enum).map Prod.snd
  rwa [List.enum_map_snd] at h

theorem pySortDesc_sorted {α : Type*} (key : α → Int) (l : List α) :
    (pySortDesc key l).Pairwise (fun a b => key b ≤ key a) := by
  have h := List.sorted_insertionSort (keyRel key) l.enum
  apply List.pairwise_map.mpr
  apply h.imp
  intro a b hab
  rcases hab with h1 | ⟨h1, _⟩
  · exact le_of_lt h1
  · exact le_of_eq h1.symm

theorem eq_of_perm_sorted_nodup {β : Type*} (f : β → Nat) :
    ∀ l₁ l₂ : List β, l₁.Perm l₂ → l₁.Pairwise (fun a b => f a ≤ f b) →
      l₂.Pairwise (fun a b => f a ≤ f b) → (l₂.map f).Nodup → l₁ = l₂ := by
  intro l₁
  induction l₁ with
  | nil =>
    intro l₂ hp _ _ _
    exact (List.Perm.eq_nil hp.symm).symm
  | cons a t ih =>
    intro l₂ hp hs1 hs2 hnd
    match l₂ with
    | [] =>
      have := hp.length_eq
      simp at this
    | b :: t₂ =>
      have hab : a = b := by
        by_contra hne
        have hamem : a ∈ b :: t₂ := hp.mem_iff.mp (List.mem_cons_self _ _)
        have hat2 : a ∈ t₂ := by
          rcases List.mem_cons.mp hamem with h | h
          · exact absurd h hne
          · exact h
        have hbmem : b ∈ a :: t := hp.symm.mem_iff.mp (List.mem_cons_self _ _)
        have hbt : b ∈ t := by
          rcases List.mem_cons.mp hbmem with h | h
          · exact absurd h.symm hne
          · exact h
        have h1 : f a ≤ f b := (List.pairwise_cons.mp hs1).1 b hbt
        have h2 : f b ≤ f a := (List.pairwise_cons.mp hs2).1 a hat2
        have heq : f a = f b := le_antisymm h1 h2
        have hnotin : f b ∉ t₂.map f := by
          rw [List.map_cons] at hnd
          exact (List.nodup_cons.mp hnd).1
        exact hnotin (heq ▸ List.mem_map_of_mem f hat2)
      subst hab
      have hpt := hp.cons_inv
      have hrec := ih t₂ hpt (List.pairwise_cons.mp hs1).2 (List.pairwise_cons.mp hs2).2
        (by rw [List.map_cons] at hnd; exact (List.nodup_cons.mp hnd).2)
      rw [hrec]

theorem filter_map_comm {β γ : Type*} (f : β → γ) (p : γ → Bool) :
    ∀ l : List β, (l.map f).filter p = (l.filter (fun a => p (f a))).map f := by
  intro l
  induction l with
  | nil => rfl
  | cons a t ih =>
    rw [List.map_cons, List.filter_cons, List.filter_cons]
    by_cases h : p (f a) = true
    · rw [if_pos h, if_pos h, List.map_cons, ih]
    · rw [if_neg h, if_neg h, ih]

theorem pySortDesc_filter_key {α : Type*} (key : α → Int) (l : List α) (p : α → Bool)
    (hp : ∀ a b, p a = true → p b = true → key a = key b) :
    (pySortDesc key l).filter p = l.filter p := by
  have hperm : ((List.insertionSort (keyRel key) l.enum).filter
      (fun a => p (Prod.snd a))).Perm (l.enum.filter (fun a => p (Prod.snd a))) :=
    (List.perm_insertionSort (keyRel key) l.enum).filter _
  have hsorted := List.sorted_insertionSort (keyRel key) l.enum
  have hs1 : ((List.insertionSort (keyRel key) l.enum).filter
      (fun a => p (Prod.snd a))).Pairwise (fun a b : Nat × α => a.1 ≤ b.1) := by
    have h1 : ((List.insertionSort (keyRel key) l.enum).filter
        (fun a => p (Prod.snd a))).Pairwise (keyRel key) := hsorted.filter _
    refine List.Pairwise.imp_of_mem ?_ h1
    intro a b ha hb hab
    have hpa : p a.2 = true := (List.mem_filter.mp ha).2
    have hpb : p b.2 = true := (List.mem_filter.mp hb).2
    have hkey := hp a.2 b.2 hpa hpb
    rcases hab with h | ⟨_, hi⟩
    · omega
    · exact hi
  have henum : l.enum.Pairwise (fun a b : Nat × α => a.1 < b.1) := by
    apply List.pairwise_map.mp
    rw [List.enum_map_fst]
    exact List.pairwise_lt_range _
  have hs2 : (l.enum.filter (fun a => p (Prod.snd a))).Pairwise
      (fun a b : Nat × α => a.1 ≤ b.1) :=
    (henum.filter _).imp (fun h => le_of_lt h)
  have hnd : ((l.enum.filter (fun a => p (Prod.snd a))).map Prod.fst).Nodup := by
    have hsub := (List.filter_sublist (p := fun a : Nat × α => p (Prod.snd a)) l.enum).map
      Prod.fst
    rw [List.enum_map_fst] at hsub
    exact List.Nodup.sublist hsub (List.nodup_range _)
  have heq := eq_of_perm_sorted_nodup Prod.fst _ _ hperm hs1 hs2 hnd
  show ((List.insertionSort (keyRel key) l.enum).map Prod.snd).filter p = l.filter p
  rw [filter_map_comm, heq, ← filter_map_comm, List.enum_map_snd]

theorem searchYear_eq_some_iff : ∀ (y : List Char) (n : Nat),
    searchYear y = some n ↔
      ∃ p, matchYearAt (y.drop p) = some n ∧ ∀ q, q < p → matchYearAt (y.drop q) = none := by
  intro y
  induction y with
  | nil =>
    intro n
    constructor
    · intro h
      simp [searchYear] at h
    · rintro ⟨p, hp, -⟩
      rw [List.drop_nil] at hp
      simp [matchYearAt] at hp
  | cons c t ih =>
    intro n
    rw [searchYear]
    cases hm : matchYearAt (c :: t) with
    | some m =>
      dsimp only
      constructor
      · intro h
        refine ⟨0, ?_, ?_⟩
        · rw [List.drop_zero, hm]
          exact h
        · intro q hq
          omega
      · rintro ⟨p, hp, hmin⟩
        match p with
        | 0 =>
          rw [List.drop_zero, hm] at hp
          exact hp
        | p + 1 =>
          have := hmin 0 (by omega)
          rw [List.drop_zero, hm] at this
          exact absurd this (by simp)
    | none =>
      dsimp only
      rw [ih n]
      constructor
      · rintro ⟨p, hp, hmin⟩
        refine ⟨p + 1, ?_, ?_⟩
        · rw [List.drop_succ_cons]
          exact hp
        · intro q hq
          match q with
          | 0 => rw [List.drop_zero]; exact hm
          | q + 1 =>
            rw [List.drop_succ_cons]
            exact hmin q (by omega)
      · rintro ⟨p, hp, hmin⟩
        match p with
        | 0 =>
          rw [List.drop_zero, hm] at hp
          exact absurd hp (by simp)
        | p + 1 =>
          rw [List.drop_succ_cons] at hp
          refine ⟨p, hp, ?_⟩
          intro q hq
          have := hmin (q + 1) (by omega)
          rwa [List.drop_succ_cons] at this

theorem searchYear_eq_none_iff : ∀ y : List Char,
    searchYear y = none ↔ ∀ p, matchYearAt (y.drop p) = none := by
  intro y
  induction y with
  | nil =>
    constructor
    · intro _ p
      rw [List.drop_nil]
      rfl
    · intro _
      rfl
  | cons c t ih =>
    rw [searchYear]
    cases hm : matchYearAt (c :: t) with
    | some m =>
      dsimp only
      constructor
      · intro h
        exact absurd h (by simp)
      · intro h
        have := h 0
        rw [List.drop_zero, hm] at this
        exact absurd this (by simp)
    | none =>
      dsimp only
      rw [ih]
      constructor
      · intro h p
        match p with
        | 0 => rw [List.drop_zero]; exact hm
        | p + 1 => rw [List.drop_succ_cons]; exact h p
      · intro h p
        have := h (p + 1)
        rwa [List.drop_succ_cons] at this

theorem matchYearAt_beyond (y : List Char)
    (h : ∀ q, q < y.length → matchYearAt (y.drop q) = none) :
    ∀ p, matchYearAt (y.drop p) = none := by
  intro p
  by_cases hp : p < y.length
  · exact h p hp
  · rw [List.drop_eq_nil_of_le (by omega)]
    rfl

theorem get_sort_year_eq (y : List Char) :
    update_publications_local.get_sort_year y =
      if y = "n.d.".toList ∨ y = [] then 0
      else
        match searchYear y with
        | some n => (n : Int)
        | none =>
          match parseInt y with
          | some n => n
          | none => 0 := rfl

/-- Claim C1, amended. For a document with exactly one start marker (at `i`)
    followed later by exactly one end marker (at `k`), and a replacement
    region `C` that begins with the start marker, ends with the end marker,
    contains no backslash, and whose first end-marker occurrence is its
    terminal one, `update_html_file` succeeds and produces exactly the text
    before the old region, then `C`, then the text after the old region;
    the marker-delimited region of the result is exactly `C`. -/
theorem claim_C1_amended (doc C cmid : List Char) (i k : Nat)
    (hS : occList startM doc = [i])
    (hE : occList endM doc = [k])
    (hik : i + startM.length ≤ k)
    (hC : C = startM ++ (cmid ++ endM))
    (hnb : ('\\' : Char) ∉ C)
    (hCE : occList endM C = [startM.length + cmid.length]) :
    update_html_file doc C =
      (true, doc.take i ++ (C ++ doc.drop (k + endM.length)))
    ∧ markerRegion (doc.take i ++ (C ++ doc.drop (k + endM.length))) = some C :=
  ⟨update_single_pair hS hE hik hC hnb,
   markerRegion_splice (firstIdx_of_occList_cons hS) hC hCE⟩

/-- Witness for claim C1: a concrete single-pair document and a well-formed
    rendered region. -/
theorem claim_C1_witness :
    update_html_file
        "A<!-- PUBLICATIONS_START -->old<!-- PUBLICATIONS_END -->Z".toList
        "<!-- PUBLICATIONS_START -->new<!-- PUBLICATIONS_END -->".toList =
      (true,
        "A<!-- PUBLICATIONS_START -->old<!-- PUBLICATIONS_END -->Z".toList.take 1 ++
        ("<!-- PUBLICATIONS_START -->new<!-- PUBLICATIONS_END -->".toList ++
          "A<!-- PUBLICATIONS_START -->old<!-- PUBLICATIONS_END -->Z".toList.drop 56))
    ∧ markerRegion
        ("A<!-- PUBLICATIONS_START -->old<!-- PUBLICATIONS_END -->Z".toList.take 1 ++
          ("<!-- PUBLICATIONS_START -->new<!-- PUBLICATIONS_END -->".toList ++
            "A<!-- PUBLICATIONS_START -->old<!-- PUBLICATIONS_END -->Z".toList.drop 56)) =
      some "<!-- PUBLICATIONS_START -->new<!-- PUBLICATIONS_END -->".toList :=
  claim_C1_amended
    "A<!-- PUBLICATIONS_START -->old<!-- PUBLICATIONS_END -->Z".toList
    "<!-- PUBLICATIONS_START -->new<!-- PUBLICATIONS_END -->".toList
    "new".toList 1 31
    (by decide) (by decide) (by decide) (by decide) (by decide) (by decide)

/-- Counterexample to claim C1 as stated. The document consists of exactly
    one start marker followed by one end marker; the replacement region
    begins with the start marker and ends with the end marker (and has no
    backslash), yet the marker-delimited region of the updated document is
    not the replacement region, because the replacement contains an earlier
    end-marker occurrence. -/
theorem claim_C1_counterexample :
    occList startM "<!-- PUBLICATIONS_START --><!-- PUBLICATIONS_END -->".toList = [0]
    ∧ occList endM "<!-- PUBLICATIONS_START --><!-- PUBLICATIONS_END -->".toList = [27]
    ∧ startM <+:
        "<!-- PUBLICATIONS_START --><!-- PUBLICATIONS_END -->x<!-- PUBLICATIONS_END -->".toList
    ∧ endM <:+
        "<!-- PUBLICATIONS_START --><!-- PUBLICATIONS_END -->x<!-- PUBLICATIONS_END -->".toList
    ∧ ('\\' : Char) ∉
        "<!-- PUBLICATIONS_START --><!-- PUBLICATIONS_END -->x<!-- PUBLICATIONS_END -->".toList
    ∧ update_html_file
        "<!-- PUBLICATIONS_START --><!-- PUBLICATIONS_END -->".toList
        "<!-- PUBLICATIONS_START --><!-- PUBLICATIONS_END -->x<!-- PUBLICATIONS_END -->".toList =
      (true,
        "<!-- PUBLICATIONS_START --><!-- PUBLICATIONS_END -->x<!-- PUBLICATIONS_END -->".toList)
    ∧ markerRegion
        "<!-- PUBLICATIONS_START --><!-- PUBLICATIONS_END -->x<!-- PUBLICATIONS_END -->".toList ≠
      some
        "<!-- PUBLICATIONS_START --><!-- PUBLICATIONS_END -->x<!-- PUBLICATIONS_END -->".toList := by
  decide

/-- Claim C3. When the document text lacks the start marker literal or the
    end marker literal, `update_html_file` returns False before any
    substitution or write, and the document text is unchanged. -/
theorem claim_C3 (doc C : List Char)
    (h : occList startM doc = [] ∨ occList endM doc = []) :
    update_html_file doc C = (false, doc) := by
  rw [update_html_file_eq]
  rcases h with h | h
  · rw [firstIdx_none_of_occList_nil h]
    rw [if_neg (by simp)]
  · rw [firstIdx_none_of_occList_nil h]
    rw [if_neg (by simp)]

/-- Witness for claim C3: a document with no markers at all is reported as a
    failure and left unmodified. -/
theorem claim_C3_witness :
    update_html_file "<html>no markers here</html>".toList
      "<!-- PUBLICATIONS_START -->x<!-- PUBLICATIONS_END -->".toList =
      (false, "<html>no markers here</html>".toList) :=
  claim_C3 _ _ (Or.inl (by decide))

/-- Claim C10. When both marker literals occur in the document but every
    occurrence of the end marker precedes every occurrence of the start
    marker, `update_html_file` reports success (True) while writing back the
    document text unchanged: the pattern has no match, so no substitution
    happens and no error is raised. -/
theorem claim_C10 (doc C : List Char)
    (hT : (expandTemplate [] C).isSome)
    (hs : occList startM doc ≠ [])
    (he : occList endM doc ≠ [])
    (horder : ∀ q ∈ occList endM doc, ∀ p ∈ occList startM doc, q < p) :
    update_html_file doc C = (true, doc) := by
  match hSlist : occList startM doc with
  | [] => exact absurd hSlist hs
  | i :: ts =>
    match hElist : occList endM doc with
    | [] => exact absurd hElist he
    | k :: te =>
      have hf1 : firstIdx startM doc = some i := firstIdx_of_occList_cons hSlist
      have hfE : firstIdx endM doc = some k := firstIdx_of_occList_cons hElist
      have h2 : firstIdx endM (doc.drop (i + startM.length)) = none := by
        apply (firstIdx_none_iff endM_ne_nil).mpr
        intro q hocc
        have hocc2 : occursAt endM doc (i + startM.length + q) := occursAt_drop.mp hocc
        have hmem : i + startM.length + q ∈ occList endM doc :=
          (mem_occList endM_ne_nil).mpr hocc2
        have himem : i ∈ occList startM doc := by
          rw [hSlist]; exact List.mem_cons_self _ _
        have := horder _ hmem _ himem
        have hSpos : 0 < startM.length := by decide
        omega
      rw [update_html_file_eq, hf1, hfE]
      rw [if_pos ⟨rfl, rfl⟩]
      obtain ⟨e, he2⟩ := Option.isSome_iff_exists.mp hT
      rw [he2]
      dsimp only
      rw [re_sub_no_end hf1 h2]

/-- Witness for claim C10: end marker before start marker yields True with
    the text unchanged. -/
theorem claim_C10_witness :
    update_html_file "<!-- PUBLICATIONS_END -->mid<!-- PUBLICATIONS_START -->".toList
      "new content".toList =
      (true, "<!-- PUBLICATIONS_END -->mid<!-- PUBLICATIONS_START -->".toList) :=
  claim_C10 _ _ (by decide) (by decide) (by decide) (by decide)

/-- Claim C9. The replacement content is passed to `re.sub` as a template,
    not literal text: with no backslash in the content the inserted text is
    exactly the content, but the content consisting of the template escape
    for group 0 is expanded to the matched old region, so the round-trip
    property fails: the update succeeds, yet the marker region of the result
    differs from the given content. -/
theorem claim_C9 :
    (∀ m T : List Char, ('\\' : Char) ∉ T → expandTemplate m T = some T)
    ∧ (update_html_file
          "<!-- PUBLICATIONS_START --><!-- PUBLICATIONS_END -->".toList
          "\\g<0>".toList).1 = true
    ∧ markerRegion (update_html_file
          "<!-- PUBLICATIONS_START --><!-- PUBLICATIONS_END -->".toList
          "\\g<0>".toList).2 =
        some "<!-- PUBLICATIONS_START --><!-- PUBLICATIONS_END -->".toList
    ∧ "<!-- PUBLICATIONS_START --><!-- PUBLICATIONS_END -->".toList ≠
        "\\g<0>".toList :=
  ⟨fun m T h => expandTemplate_no_backslash m T h, by decide, by decide, by decide⟩

/-- Witness for claim C9: a backslash-free template expands to itself. -/
theorem claim_C9_witness :
    expandTemplate "match text".toList "plain content".toList =
      some "plain content".toList :=
  claim_C9.1 "match text".toList "plain content".toList (by decide)

/-- Claim C4, amended. Splicing is idempotent for any document, provided the
    replacement region `C` begins with the start marker, ends with the end
    marker, contains no backslash, and its first end-marker occurrence is
    its terminal one: applying the text transformation of
    `update_html_file` twice with `C` yields the same text as applying it
    once. -/
theorem claim_C4_amended (doc C cmid : List Char)
    (hC : C = startM ++ (cmid ++ endM))
    (hnb : ('\\' : Char) ∉ C)
    (hCE : occList endM C = [startM.length + cmid.length]) :
    (update_html_file (update_html_file doc C).2 C).2 = (update_html_file doc C).2 := by
  have hT : expandTemplate [] C = some C := expandTemplate_no_backslash [] C hnb
  rw [update_html_file_eq doc C]
  by_cases hcond : (firstIdx startM doc).isSome ∧ (firstIdx endM doc).isSome
  · rw [if_pos hcond, hT]
    dsimp only
    obtain ⟨r, hr⟩ := re_sub_total hnb doc.length doc le_rfl
    rw [hr]
    dsimp only
    have hfix : re_sub C r = some r := re_sub_fixed hC hnb hCE doc.length doc r le_rfl hr
    rw [update_html_file_eq r C]
    by_cases hcond2 : (firstIdx startM r).isSome ∧ (firstIdx endM r).isSome
    · rw [if_pos hcond2, hT]
      dsimp only
      rw [hfix]
    · rw [if_neg hcond2]
  · rw [if_neg hcond]
    dsimp only
    rw [update_html_file_eq doc C, if_neg hcond]

/-- Witness for claim C4: a concrete document and a well-formed region. -/
theorem claim_C4_witness :
    (update_html_file
        (update_html_file
          "A<!-- PUBLICATIONS_START -->old<!-- PUBLICATIONS_END -->Z".toList
          "<!-- PUBLICATIONS_START -->fresh<!-- PUBLICATIONS_END -->".toList).2
        "<!-- PUBLICATIONS_START -->fresh<!-- PUBLICATIONS_END -->".toList).2 =
      (update_html_file
        "A<!-- PUBLICATIONS_START -->old<!-- PUBLICATIONS_END -->Z".toList
        "<!-- PUBLICATIONS_START -->fresh<!-- PUBLICATIONS_END -->".toList).2 :=
  claim_C4_amended
    "A<!-- PUBLICATIONS_START -->old<!-- PUBLICATIONS_END -->Z".toList
    "<!-- PUBLICATIONS_START -->fresh<!-- PUBLICATIONS_END -->".toList
    "fresh".toList (by decide) (by decide) (by decide)

set_option maxRecDepth 40000 in
/-- Counterexample to claim C4 as stated. With a replacement region that
    begins with the start marker and ends with the end marker but contains a
    second marker pair, applying the transformation twice duplicates
    content: the second application differs from the first. -/
theorem claim_C4_counterexample :
    (update_html_file
        (update_html_file
          "<!-- PUBLICATIONS_START --><!-- PUBLICATIONS_END -->".toList
          ("<!-- PUBLICATIONS_START --><!-- PUBLICATIONS_END -->" ++
           "<!-- PUBLICATIONS_START --><!-- PUBLICATIONS_END -->").toList).2
        ("<!-- PUBLICATIONS_START --><!-- PUBLICATIONS_END -->" ++
         "<!-- PUBLICATIONS_START --><!-- PUBLICATIONS_END -->").toList).2 ≠
      (update_html_file
        "<!-- PUBLICATIONS_START --><!-- PUBLICATIONS_END -->".toList
        ("<!-- PUBLICATIONS_START --><!-- PUBLICATIONS_END -->" ++
         "<!-- PUBLICATIONS_START --><!-- PUBLICATIONS_END -->").toList).2 := by
  decide

/-- Claim C2, amended. `re.sub` is called without a count, so it replaces
    every non-overlapping match, not only the first: in a document with
    exactly two disjoint marker pairs, both regions are replaced by the
    (backslash-free) region text, with the text before, between and after
    the pairs unchanged. -/
theorem claim_C2_amended (doc C : List Char) (i1 k1 i2 k2 : Nat)
    (hS : occList startM doc = [i1, i2])
    (hE : occList endM doc = [k1, k2])
    (hik1 : i1 + startM.length ≤ k1)
    (hki : k1 + endM.length ≤ i2)
    (hik2 : i2 + startM.length ≤ k2)
    (hnb : ('\\' : Char) ∉ C) :
    update_html_file doc C =
      (true,
        doc.take i1 ++ (C ++
          ((doc.drop (k1 + endM.length)).take (i2 - (k1 + endM.length)) ++
            (C ++ doc.drop (k2 + endM.length))))) := by
  have hSpos : 0 < startM.length := by decide
  have hEpos : 0 < endM.length := by decide
  have hf1 : firstIdx startM doc = some i1 := firstIdx_of_occList_cons hS
  have hfE : firstIdx endM doc = some k1 := firstIdx_of_occList_cons hE
  have hocck1 : occursAt endM doc k1 := by
    apply (mem_occList endM_ne_nil).mp; rw [hE]; exact List.mem_cons_self _ _
  have hocck2 : occursAt endM doc k2 := by
    apply (mem_occList endM_ne_nil).mp; rw [hE]; simp
  have hocci2 : occursAt startM doc i2 := by
    apply (mem_occList startM_ne_nil).mp; rw [hS]; simp
  have hk12 : k1 < k2 := by
    have hpw := occList_pairwise endM doc
    rw [hE] at hpw
    have := (List.pairwise_cons.mp hpw).1 k2 (List.mem_cons_self _ _)
    exact this
  have hfe1 : firstIdx endM (doc.drop (i1 + startM.length)) =
      some (k1 - (i1 + startM.length)) := by
    apply (firstIdx_some_iff endM_ne_nil).mpr
    constructor
    · apply occursAt_drop.mpr
      have harith : i1 + startM.length + (k1 - (i1 + startM.length)) = k1 := by omega
      rw [harith]; exact hocck1
    · intro q hq hocc
      have hocc2 : occursAt endM doc (i1 + startM.length + q) := occursAt_drop.mp hocc
      have hmem : i1 + startM.length + q ∈ occList endM doc :=
        (mem_occList endM_ne_nil).mpr hocc2
      rw [hE] at hmem
      rcases List.mem_cons.mp hmem with h | h
      · omega
      · have : i1 + startM.length + q = k2 := by simpa using h
        omega
  have hf2 : firstIdx startM (doc.drop (k1 + endM.length)) =
      some (i2 - (k1 + endM.length)) := by
    apply (firstIdx_some_iff startM_ne_nil).mpr
    constructor
    · apply occursAt_drop.mpr
      have harith : k1 + endM.length + (i2 - (k1 + endM.length)) = i2 := by omega
      rw [harith]; exact hocci2
    · intro q hq hocc
      have hocc2 : occursAt startM doc (k1 + endM.length + q) := occursAt_drop.mp hocc
      have hmem : k1 + endM.length + q ∈ occList startM doc :=
        (mem_occList startM_ne_nil).mpr hocc2
      rw [hS] at hmem
      rcases List.mem_cons.mp hmem with h | h
      · omega
      · have : k1 + endM.length + q = i2 := by simpa using h
        omega
  have hfe2 : firstIdx endM ((doc.drop (k1 + endM.length)).drop
      (i2 - (k1 + endM.length) + startM.length)) = some (k2 - (i2 + startM.length)) := by
    rw [List.drop_drop]
    have harith : k1 + endM.length + (i2 - (k1 + endM.length) + startM.length) =
        i2 + startM.length := by omega
    rw [harith]
    apply (firstIdx_some_iff endM_ne_nil).mpr
    constructor
    · apply occursAt_drop.mpr
      have harith2 : i2 + startM.length + (k2 - (i2 + startM.length)) = k2 := by omega
      rw [harith2]; exact hocck2
    · intro q hq hocc
      have hocc2 : occursAt endM doc (i2 + startM.length + q) := occursAt_drop.mp hocc
      have hmem : i2 + startM.length + q ∈ occList endM doc :=
        (mem_occList endM_ne_nil).mpr hocc2
      rw [hE] at hmem
      rcases List.mem_cons.mp hmem with h | h
      · omega
      · have : i2 + startM.length + q = k2 := by simpa using h
        omega
  have h4 : firstIdx startM (doc.drop (k2 + endM.length)) = none := by
    apply (firstIdx_none_iff startM_ne_nil).mpr
    intro q hocc
    have hocc2 : occursAt startM doc (k2 + endM.length + q) := occursAt_drop.mp hocc
    have hmem : k2 + endM.length + q ∈ occList startM doc :=
      (mem_occList startM_ne_nil).mpr hocc2
    rw [hS] at hmem
    rcases List.mem_cons.mp hmem with h | h
    · omega
    · have : k2 + endM.length + q = i2 := by simpa using h
      omega
  rw [update_html_file_eq, hf1, hfE]
  rw [if_pos ⟨rfl, rfl⟩]
  rw [expandTemplate_no_backslash [] C hnb]
  dsimp only
  rw [re_sub_step hf1 hfe1 (expandTemplate_no_backslash _ _ hnb)]
  have e1 : i1 + startM.length + (k1 - (i1 + startM.length)) + endM.length =
      k1 + endM.length := by omega
  rw [e1]
  rw [re_sub_step hf2 hfe2 (expandTemplate_no_backslash _ _ hnb)]
  have e2 : (doc.drop (k1 + endM.length)).drop
      (i2 - (k1 + endM.length) + startM.length + (k2 - (i2 + startM.length)) +
        endM.length) = doc.drop (k2 + endM.length) := by
    rw [List.drop_drop]
    congr 1
    omega
  rw [e2, re_sub_no_start h4]
  simp [List.append_assoc]

/-- Witness for claim C2: a concrete document with two disjoint marker
    pairs; both are replaced. -/
theorem claim_C2_witness :
    update_html_file
      ("a<!-- PUBLICATIONS_START -->p<!-- PUBLICATIONS_END -->" ++
       "b<!-- PUBLICATIONS_START -->q<!-- PUBLICATIONS_END -->c").toList
      "REPLACED".toList =
      (true,
        ("a<!-- PUBLICATIONS_START -->p<!-- PUBLICATIONS_END -->" ++
         "b<!-- PUBLICATIONS_START -->q<!-- PUBLICATIONS_END -->c").toList.take 1 ++
        ("REPLACED".toList ++
          ((("a<!-- PUBLICATIONS_START -->p<!-- PUBLICATIONS_END -->" ++
             "b<!-- PUBLICATIONS_START -->q<!-- PUBLICATIONS_END -->c").toList.drop 54).take 1 ++
            ("REPLACED".toList ++
              ("a<!-- PUBLICATIONS_START -->p<!-- PUBLICATIONS_END -->" ++
               "b<!-- PUBLICATIONS_START -->q<!-- PUBLICATIONS_END -->c").toList.drop 108)))) :=
  claim_C2_amended
    ("a<!-- PUBLICATIONS_START -->p<!-- PUBLICATIONS_END -->" ++
     "b<!-- PUBLICATIONS_START -->q<!-- PUBLICATIONS_END -->c").toList
    "REPLACED".toList 1 29 55 83
    (by decide) (by decide) (by decide) (by decide) (by decide) (by decide)

set_option maxRecDepth 40000 in
/-- Counterexample to claim C2 as stated. In a document with two marker
    pairs, the pair after the first match is not left unchanged: it is also
    replaced, so the result is the region text twice, not the region text
    followed by the untouched second pair. -/
theorem claim_C2_counterexample :
    update_html_file
        ("<!-- PUBLICATIONS_START --><!-- PUBLICATIONS_END -->" ++
         "<!-- PUBLICATIONS_START --><!-- PUBLICATIONS_END -->").toList
        "<!-- PUBLICATIONS_START -->x<!-- PUBLICATIONS_END -->".toList =
      (true,
        ("<!-- PUBLICATIONS_START -->x<!-- PUBLICATIONS_END -->" ++
         "<!-- PUBLICATIONS_START -->x<!-- PUBLICATIONS_END -->").toList)
    ∧ ("<!-- PUBLICATIONS_START -->x<!-- PUBLICATIONS_END -->" ++
        "<!-- PUBLICATIONS_START -->x<!-- PUBLICATIONS_END -->").toList ≠
      ("<!-- PUBLICATIONS_START -->x<!-- PUBLICATIONS_END -->" ++
        "<!-- PUBLICATIONS_START --><!-- PUBLICATIONS_END -->").toList := by
  decide

/-- Claim C5, amended. In update_publications_local.py the sort-key
    computation get_sort_year is a total function on year text: the
    sentinel or empty year gives key 0; otherwise, when the text contains a
    4-digit 19xx or 20xx substring, the key is the value of the leftmost
    such match; otherwise, when the whole text parses as an integer, the
    key is that integer; otherwise the key is 0.  In update_publications.py
    the sort key is int of the year unless it is the sentinel: it is 0 for
    the sentinel and the parsed value for an integer year text, but it
    raises (none here) on any other year text, including the empty one and
    texts that merely contain a 4-digit year. -/
theorem claim_C5_amended (y : List Char) :
    ((y = "n.d.".toList ∨ y = []) → update_publications_local.get_sort_year y = 0)
    ∧ (y ≠ "n.d.".toList → y ≠ [] →
        ∀ p n, matchYearAt (y.drop p) = some n →
          (∀ q, q < p → matchYearAt (y.drop q) = none) →
          update_publications_local.get_sort_year y = (n : Int))
    ∧ (y ≠ "n.d.".toList → y ≠ [] → (∀ p, matchYearAt (y.drop p) = none) →
        ∀ n : Int, parseInt y = some n → update_publications_local.get_sort_year y = n)
    ∧ (y ≠ "n.d.".toList → y ≠ [] → (∀ p, matchYearAt (y.drop p) = none) →
        parseInt y = none → update_publications_local.get_sort_year y = 0)
    ∧ (y = "n.d.".toList → update_publications.yearKeyStrict y = some 0)
    ∧ (y ≠ "n.d.".toList → ∀ n : Int, parseInt y = some n →
        update_publications.yearKeyStrict y = some n)
    ∧ (y ≠ "n.d.".toList → parseInt y = none →
        update_publications.yearKeyStrict y = none) := by
  refine ⟨?_, ?_, ?_, ?_, ?_, ?_, ?_⟩
  · intro h
    rw [get_sort_year_eq, if_pos h]
  · intro h1 h2 p n hp hmin
    have hs : searchYear y = some n := (searchYear_eq_some_iff y n).mpr ⟨p, hp, hmin⟩
    rw [get_sort_year_eq, if_neg (not_or.mpr ⟨h1, h2⟩), hs]
  · intro h1 h2 hall n hparse
    have hs : searchYear y = none := (searchYear_eq_none_iff y).mpr hall
    rw [get_sort_year_eq, if_neg (not_or.mpr ⟨h1, h2⟩), hs]
    dsimp only
    rw [hparse]
  · intro h1 h2 hall hparse
    have hs : searchYear y = none := (searchYear_eq_none_iff y).mpr hall
    rw [get_sort_year_eq, if_neg (not_or.mpr ⟨h1, h2⟩), hs]
    dsimp only
    rw [hparse]
  · intro h
    rw [update_publications.yearKeyStrict, if_pos h]
  · intro h n hparse
    rw [update_publications.yearKeyStrict, if_neg h, hparse]
  · intro h hparse
    rw [update_publications.yearKeyStrict, if_neg h, hparse]

/-- Witness for claim C5: a year embedded in surrounding text is recovered
    as the sort key by the local script. -/
theorem claim_C5_witness :
    update_publications_local.get_sort_year "c. 2019".toList = (2019 : Int) :=
  (claim_C5_amended "c. 2019".toList).2.1 (by decide) (by decide) 3 2019
    (by decide) (by decide)

/-- Counterexample to claim C5 as stated. The claim also cites the sort key
    of update_publications.py line 44, which is not total: it raises
    (modelled as none) on the empty year, where the claim requires key 0,
    and on a year embedded in surrounding text such as "c. 2019", where the
    claim requires key 2019 (the text does contain the 4-digit match, as
    the third conjunct shows, and is not the sentinel). -/
theorem claim_C5_counterexample :
    update_publications.yearKeyStrict "c. 2019".toList = none
    ∧ update_publications.yearKeyStrict [] = none
    ∧ matchYearAt ("c. 2019".toList.drop 3) = some 2019
    ∧ "c. 2019".toList ≠ "n.d.".toList := by
  decide

theorem fetch_publications_strict_eq (pubs : List Publication) :
    update_publications.fetch_publications (Except.ok pubs) =
      if pubs.all (fun p => (update_publications.yearKeyStrict p.year).isSome) then
        (pySortDesc (fun p => (update_publications.yearKeyStrict p.year).getD 0)
          pubs).take 10
      else [] := rfl

/-- Claim C6, amended. In update_publications_local.py the fetch result is,
    for every input list of normalized records, the first 10 elements of
    the stable descending sort of the list by the get_sort_year key: the
    sorted list is a permutation of the input, its keys are non-increasing,
    records with equal key keep their original relative order (the filter
    at any key value is unchanged), the output has length at most 10, and
    for 15 inputs exactly 10.  In update_publications.py the same holds for
    its strict key, but only when every year is the sentinel or parses as
    an integer; otherwise the ValueError raised while sorting is caught and
    the fetch returns the empty list instead of the truncated sorted
    list. -/
theorem claim_C6_amended (pubs : List Publication) :
    update_publications_local.fetch_publications (Except.ok pubs) =
      (pySortDesc (fun p => update_publications_local.get_sort_year p.year) pubs).take 10
    ∧ (pySortDesc (fun p => update_publications_local.get_sort_year p.year) pubs).Perm pubs
    ∧ (pySortDesc (fun p => update_publications_local.get_sort_year p.year) pubs).Pairwise
        (fun a b => update_publications_local.get_sort_year b.year ≤
          update_publications_local.get_sort_year a.year)
    ∧ (∀ k : Int,
        (pySortDesc (fun p => update_publications_local.get_sort_year p.year) pubs).filter
            (fun p => decide (update_publications_local.get_sort_year p.year = k)) =
          pubs.filter (fun p => decide (update_publications_local.get_sort_year p.year = k)))
    ∧ (update_publications_local.fetch_publications (Except.ok pubs)).length ≤ 10
    ∧ (pubs.length = 15 →
        (update_publications_local.fetch_publications (Except.ok pubs)).length = 10)
    ∧ (pubs.all (fun p => (update_publications.yearKeyStrict p.year).isSome) = true →
        update_publications.fetch_publications (Except.ok pubs) =
          (pySortDesc (fun p => (update_publications.yearKeyStrict p.year).getD 0)
            pubs).take 10
        ∧ (pySortDesc (fun p => (update_publications.yearKeyStrict p.year).getD 0)
            pubs).Perm pubs
        ∧ (pySortDesc (fun p => (update_publications.yearKeyStrict p.year).getD 0)
            pubs).Pairwise (fun a b => (update_publications.yearKeyStrict b.year).getD 0 ≤
              (update_publications.yearKeyStrict a.year).getD 0)
        ∧ ∀ k : Int,
            (pySortDesc (fun p => (update_publications.yearKeyStrict p.year).getD 0)
                pubs).filter
              (fun p => decide ((update_publications.yearKeyStrict p.year).getD 0 = k)) =
            pubs.filter
              (fun p => decide ((update_publications.yearKeyStrict p.year).getD 0 = k)))
    ∧ (pubs.all (fun p => (update_publications.yearKeyStrict p.year).isSome) = false →
        update_publications.fetch_publications (Except.ok pubs) = []) := by
  refine ⟨rfl, pySortDesc_perm _ _, pySortDesc_sorted _ _, ?_, ?_, ?_, ?_, ?_⟩
  · intro k
    apply pySortDesc_filter_key
    intro a b ha hb
    have ha2 := of_decide_eq_true ha
    have hb2 := of_decide_eq_true hb
    rw [ha2, hb2]
  · show ((pySortDesc (fun p => update_publications_local.get_sort_year p.year)
      pubs).take 10).length ≤ 10
    rw [List.length_take]
    omega
  · intro h15
    show ((pySortDesc (fun p => update_publications_local.get_sort_year p.year)
      pubs).take 10).length = 10
    rw [List.length_take]
    have := (pySortDesc_perm
      (fun p => update_publications_local.get_sort_year p.year) pubs).length_eq
    omega
  · intro hall
    refine ⟨?_, pySortDesc_perm _ _, pySortDesc_sorted _ _, ?_⟩
    · rw [fetch_publications_strict_eq, if_pos hall]
    · intro k
      apply pySortDesc_filter_key
      intro a b ha hb
      have ha2 := of_decide_eq_true ha
      have hb2 := of_decide_eq_true hb
      rw [ha2, hb2]
  · intro hall
    rw [fetch_publications_strict_eq, if_neg (by simp [hall])]

/-- Witness for claim C6: fifteen identical records yield exactly ten in
    the local script. -/
theorem claim_C6_witness :
    (update_publications_local.fetch_publications (Except.ok
      (List.replicate 15
        ⟨"t".toList, AuthorsField.str "a".toList, "2020".toList,
          "v".toList, 0, []⟩))).length = 10 :=
  (claim_C6_amended _).2.2.2.2.2.1 (by decide)

/-- Counterexample to claim C6 as stated. The claim also cites
    update_publications.py lines 43-46, whose fetch returns the empty list
    when some year text is not the sentinel and not an integer (the sort
    key raises a ValueError, caught by the surrounding except): on a
    one-record list the claimed value, the first 10 elements of any sorted
    permutation of the input, is the input itself, which is nonempty,
    yet the fetch returns the empty list. -/
theorem claim_C6_counterexample :
    update_publications.fetch_publications (Except.ok
      [⟨"t".toList, AuthorsField.str "a".toList, "c. 2019".toList,
        "v".toList, 0, []⟩]) = []
    ∧ (∀ l : List Publication,
        l.Perm [⟨"t".toList, AuthorsField.str "a".toList, "c. 2019".toList,
          "v".toList, 0, []⟩] →
        l.take 10 =
          [⟨"t".toList, AuthorsField.str "a".toList, "c. 2019".toList,
            "v".toList, 0, []⟩])
    ∧ ([⟨"t".toList, AuthorsField.str "a".toList, "c. 2019".toList,
        "v".toList, 0, []⟩] : List Publication) ≠ [] := by
  refine ⟨by decide, ?_, by decide⟩
  intro l hl
  rw [List.perm_singleton.mp hl]
  rfl

/-- Claim C7, amended. In update_publications_local.py the rendered
    venue-info paragraph omits the venue prefix when the venue is empty,
    the sentinel Unpublished, or blank, and otherwise renders the venue
    followed by a comma and space; in update_publications.py the venue is
    always rendered followed by a comma and space, with no suppression; in
    both, the original year display text is appended verbatim. -/
theorem claim_C7_amended (pub : Publication) :
    ((pub.venue = [] ∨ pub.venue = "Unpublished".toList ∨ ∀ c ∈ pub.venue, isPySpace c) →
      update_publications_local.format_publication_html pub =
        "        <div class=\"publication-item\">\n".toList ++
        (if pub.url ≠ [] then
          "            <h3><a href=\"".toList ++ pub.url ++ "\" target=\"_blank\">".toList ++
            pub.title ++ "</a></h3>\n".toList
         else "            <h3>".toList ++ pub.title ++ "</h3>\n".toList) ++
        "            <p class=\"authors\">".toList ++ formatAuthors pub.authors ++
          "</p>\n".toList ++
        "            <p class=\"venue-info\">".toList ++
        pub.year ++
        (if 0 < pub.citations then
          " • <span class=\"citations\">".toList ++ (toString pub.citations).toList ++
            " citations</span>".toList
         else []) ++
        "</p>\n".toList ++ "        </div>\n".toList)
    ∧ ((pub.venue ≠ [] ∧ pub.venue ≠ "Unpublished".toList ∧
          ∃ c ∈ pub.venue, ¬ isPySpace c) →
      update_publications_local.format_publication_html pub =
        "        <div class=\"publication-item\">\n".toList ++
        (if pub.url ≠ [] then
          "            <h3><a href=\"".toList ++ pub.url ++ "\" target=\"_blank\">".toList ++
            pub.title ++ "</a></h3>\n".toList
         else "            <h3>".toList ++ pub.title ++ "</h3>\n".toList) ++
        "            <p class=\"authors\">".toList ++ formatAuthors pub.authors ++
          "</p>\n".toList ++
        "            <p class=\"venue-info\">".toList ++
        pub.venue ++ ", ".toList ++
        pub.year ++
        (if 0 < pub.citations then
          " • <span class=\"citations\">".toList ++ (toString pub.citations).toList ++
            " citations</span>".toList
         else []) ++
        "</p>\n".toList ++ "        </div>\n".toList)
    ∧ update_publications.format_publication_html pub =
        "        <div class=\"publication-item\">\n".toList ++
        (if pub.url ≠ [] then
          "            <h3><a href=\"".toList ++ pub.url ++ "\" target=\"_blank\">".toList ++
            pub.title ++ "</a></h3>\n".toList
         else "            <h3>".toList ++ pub.title ++ "</h3>\n".toList) ++
        "            <p class=\"authors\">".toList ++ formatAuthors pub.authors ++
          "</p>\n".toList ++
        "            <p class=\"venue-info\">".toList ++
        pub.venue ++ ", ".toList ++
        pub.year ++
        (if 0 < pub.citations then
          " • <span class=\"citations\">".toList ++ (toString pub.citations).toList ++
            " citations</span>".toList
         else []) ++
        "</p>\n".toList ++ "        </div>\n".toList := by
  refine ⟨?_, ?_, ?_⟩
  · intro h
    have hcond : ¬ (pub.venue ≠ [] ∧ pub.venue ≠ "Unpublished".toList ∧
        pub.venue.any (fun c => !isPySpace c)) := by
      rcases h with h | h | h
      · exact fun hc => hc.1 h
      · exact fun hc => hc.2.1 h
      · intro hc
        obtain ⟨c, hcmem, hcval⟩ := List.any_eq_true.mp hc.2.2
        have hsp : isPySpace c := h c hcmem
        simp [hsp] at hcval
    rw [update_publications_local.format_publication_html, if_neg hcond]
    simp [List.append_assoc]
  · intro h
    obtain ⟨h1, h2, c, hcmem, hcval⟩ := h
    have hcond : pub.venue ≠ [] ∧ pub.venue ≠ "Unpublished".toList ∧
        pub.venue.any (fun c => !isPySpace c) :=
      ⟨h1, h2, List.any_eq_true.mpr ⟨c, hcmem, by simpa using hcval⟩⟩
    rw [update_publications_local.format_publication_html, if_pos hcond]
    simp [List.append_assoc]
  · rw [update_publications.format_publication_html]

/-- Witness for claim C7: the sentinel venue is suppressed by the local
    renderer. -/
theorem claim_C7_witness :
    update_publications_local.format_publication_html
        ⟨"T".toList, AuthorsField.str "A".toList, "2023".toList,
          "Unpublished".toList, 0, []⟩ =
      ("        <div class=\"publication-item\">\n" ++
       "            <h3>T</h3>\n" ++
       "            <p class=\"authors\">A</p>\n" ++
       "            <p class=\"venue-info\">2023</p>\n" ++
       "        </div>\n").toList := by
  have h := (claim_C7_amended
    ⟨"T".toList, AuthorsField.str "A".toList, "2023".toList,
      "Unpublished".toList, 0, []⟩).1 (Or.inr (Or.inl (by decide)))
  rw [h]
  decide

set_option maxRecDepth 40000 in
/-- Counterexample to claim C7 as stated. The renderer of
    update_publications.py does not suppress the Unpublished sentinel: the
    venue-info paragraph of a record with venue Unpublished contains the
    venue followed by a comma, not the bare year. -/
theorem claim_C7_counterexample :
    update_publications.format_publication_html
        ⟨"T".toList, AuthorsField.str "A".toList, "2023".toList,
          "Unpublished".toList, 0, []⟩ =
      ("        <div class=\"publication-item\">\n" ++
       "            <h3>T</h3>\n" ++
       "            <p class=\"authors\">A</p>\n" ++
       "            <p class=\"venue-info\">Unpublished, 2023</p>\n" ++
       "        </div>\n").toList
    ∧ ("        <div class=\"publication-item\">\n" ++
       "            <h3>T</h3>\n" ++
       "            <p class=\"authors\">A</p>\n" ++
       "            <p class=\"venue-info\">Unpublished, 2023</p>\n" ++
       "        </div>\n").toList ≠
      ("        <div class=\"publication-item\">\n" ++
       "            <h3>T</h3>\n" ++
       "            <p class=\"authors\">A</p>\n" ++
       "            <p class=\"venue-info\">2023</p>\n" ++
       "        </div>\n").toList := by
  decide

/-- Claim C8. A failed scrape is caught and yields the empty publication
    list in both scripts rather than an exception, and the top-level main
    then returns exit status 1 (after printing its no-publications
    message). -/
theorem claim_C8 :
    update_publications.fetch_publications (Except.error ()) = []
    ∧ update_publications_local.fetch_publications (Except.error ()) = []
    ∧ ∀ now doc : List Char,
        update_publications.main false (Except.error ()) now doc = 1 :=
  ⟨rfl, rfl, fun _ _ => rfl⟩
